import Mathlib

/-!
Verification development for the Cupk_Invest data-fusion and time-series
reconciliation engine.  The definitions below are shallow embeddings of the
functions in `stock_analysis/analysis.py` and `stock_analysis/data_fetcher.py`.
Machine floats are modelled as exact rationals (`Rat`); a dataframe cell that
may hold NaN is modelled as `Option Rat` with `none` for NaN; a fetch that may
raise is modelled as `Except String _`, and a caught exception becomes `none`.
-/

/-! ## Python scalar values and `_safe_float` (data_fetcher.py 32-39, analysis.py 9-16) -/

/-- A scalar as it can arrive from an upstream provider: Python `None`, a float
NaN, a genuine number, or a string.  -/
inductive PyVal where
  | pnone : PyVal
  | nan : PyVal
  | num : Rat → PyVal
  | str : String → PyVal
deriving DecidableEq, Repr

def digitsToNat (cs : List Char) : Nat :=
  cs.foldl (fun a c => a * 10 + (c.toNat - 48)) 0

/-- Python `str.strip()`: remove leading and trailing whitespace.  Implemented
over the character list so that it evaluates inside the kernel. -/
def pyStrip (s : String) : String :=
  ⟨((s.data.dropWhile Char.isWhitespace).reverse.dropWhile Char.isWhitespace).reverse⟩

/-- Python `str.startswith(p)` on character lists. -/
def startsWithL : List Char → List Char → Bool
  | [], _ => true
  | _ :: _, [] => false
  | a :: p, b :: s => a == b && startsWithL p s

/-- Models Python `float()` on plain decimal literals (optional sign, digits,
optional single decimal point).  Exotic literals (exponents, `inf`, `nan`)
are not modelled; they do not occur in the claims.  Returns `none` when the
string is unparseable, which in the source raises `ValueError`. -/
def parseFloat? (s : String) : Option Rat :=
  let t := (pyStrip s).data
  let signBody : Int × List Char :=
    match t with
    | '-' :: r => (-1, r)
    | '+' :: r => (1, r)
    | r => (1, r)
  let sgn := signBody.1
  let body := signBody.2
  let ip := body.takeWhile (fun c => c ≠ '.')
  let rest := body.dropWhile (fun c => c ≠ '.')
  match rest with
  | [] =>
    if body ≠ [] ∧ body.all Char.isDigit then
      some ((sgn : Rat) * (digitsToNat body : Rat))
    else Option.none
  | _ :: frac =>
    if (ip ≠ [] ∨ frac ≠ []) ∧ ip.all Char.isDigit ∧ frac.all Char.isDigit
        ∧ frac.all (fun c => c ≠ '.') then
      some ((sgn : Rat) * ((digitsToNat ip : Rat) + (digitsToNat frac : Rat) / ((10 : Rat) ^ frac.length)))
    else Option.none

/-- `_safe_float(value, default)`: `pd.isna` catches `None` and NaN; the
placeholder strings `'--'` and `''` also map to the default; an unparseable
string raises `ValueError`/`TypeError` inside the `try`, which is caught and
mapped to the default.  The default itself is caller supplied: most call
sites pass `0.0`, some pass `None` (modelled as `Option.none`). -/
def _safe_float (v : PyVal) (default : Option Rat) : Option Rat :=
  match v with
  | PyVal.pnone => default
  | PyVal.nan => default
  | PyVal.num q => some q
  | PyVal.str s =>
    if s = "--" ∨ s = "" then default
    else
      match parseFloat? s with
      | some q => some q
      | Option.none => default

/-- `_safe_float` specialised to a numeric dataframe cell (`none` models NaN)
with the default `0.0`, as used throughout `analysis.py`. -/
def cellSafe (v : Option Rat) : Rat := v.getD 0

/-! ## Report-period rows and `calculate_single_quarter_data` (analysis.py 18-57) -/

/-- One row of a statement restricted to the date key and one numeric line-item
column.  `value = none` models a NaN cell. -/
structure QRow where
  year : Int
  month : Nat
  value : Option Rat
deriving DecidableEq, Repr

/-- Default row used with `List.getD`. -/
def q0 : QRow := ⟨0, 0, Option.none⟩

/-- Strict chronological order on report periods (quarter granularity). -/
def rowLt (a b : QRow) : Prop :=
  a.year < b.year ∨ (a.year = b.year ∧ a.month < b.month)

instance : DecidableRel rowLt := fun a b => by
  unfold rowLt; exact inferInstance

/-- Boolean date comparison used by the sort (`sort_values('截止日期')`). -/
def rowLeB (a b : QRow) : Bool :=
  if a.year < b.year then true
  else if a.year = b.year then decide (a.month ≤ b.month)
  else false

def insertRow (r : QRow) : List QRow → List QRow
  | [] => [r]
  | x :: xs => if rowLeB r x then r :: x :: xs else x :: insertRow r xs

/-- Models `df.sort_values('截止日期')`.  Dates are unique per security, so any
correct sort produces the same list; insertion sort is used here. -/
def sortRows : List QRow → List QRow
  | [] => []
  | x :: xs => insertRow x (sortRows xs)

/-- One step of the in-year walk of `calculate_single_quarter_data`
(analysis.py 41-55): `p` is `prev_row`, `r` the current row.  A March row is
left untouched; otherwise the cumulative difference is written, except that the
assignment is skipped when both safe-floated values are zero. -/
def stepQ (p r : QRow) : QRow :=
  if r.month = 3 then r
  else
    let c := cellSafe r.value
    let pv := cellSafe p.value
    if c ≠ 0 ∨ pv ≠ 0 then { r with value := some (c - pv) } else r

/-- The per-year `iterrows` walk with its `prev_row` state (analysis.py 40-55). -/
def sqYearGo : Option QRow → List QRow → List QRow
  | _, [] => []
  | prev, r :: rs =>
    if r.month = 3 then r :: sqYearGo (some r) rs
    else
      match prev with
      | some p => stepQ p r :: sqYearGo (some r) rs
      | Option.none => r :: sqYearGo (some r) rs

/-- A fiscal year's block: years with fewer than two filings are skipped
(analysis.py 37-38). -/
def sqYear (rows : List QRow) : List QRow :=
  if rows.length < 2 then rows else sqYearGo Option.none rows

def sameYearB (y : Int) (r : QRow) : Bool := r.year == y

theorem length_dropWhile_le' (p : α → Bool) : ∀ l : List α, (l.dropWhile p).length ≤ l.length
  | [] => Nat.le_refl _
  | x :: xs => by
    by_cases h : p x = true
    · simpa [List.dropWhile, h] using Nat.le_succ_of_le (length_dropWhile_le' p xs)
    · simp [List.dropWhile, h]

/-- Group the sorted rows into per-year blocks and run the walk on each
(analysis.py 33-56): the source iterates `df['截止日期'].dt.year.unique()` and
selects each year's rows, which form contiguous blocks of the sorted list. -/
def sqProcess (l : List QRow) : List QRow :=
  match l with
  | [] => []
  | r :: rs =>
    sqYear ((r :: rs).takeWhile (sameYearB r.year))
      ++ sqProcess (rs.dropWhile (sameYearB r.year))
termination_by l.length
decreasing_by
  simp only [List.length_cons]
  exact Nat.lt_succ_of_le (length_dropWhile_le' _ _)

/-- `calculate_single_quarter_data` (analysis.py 18-57) on one flow-type
numeric column: sort by end date, then decompose cumulative values per year. -/
def calculate_single_quarter_data (rows : List QRow) : List QRow :=
  sqProcess (sortRows rows)

/-- Characterisation helper: the transform applied at position `i+1` of the
sorted list, given its predecessor.  Year boundaries reset the walk. -/
def zpStep (p r : QRow) : QRow := if p.year = r.year then stepQ p r else r

/-- Global form of the per-year walk, threading the predecessor through the
whole list; proved equal to `sqProcess` below. -/
def zp : Option QRow → List QRow → List QRow
  | _, [] => []
  | Option.none, r :: rs => r :: zp (some r) rs
  | some p, r :: rs => zpStep p r :: zp (some r) rs

/-! ## `calculate_ttm_series` (analysis.py 98-126) -/

/-- First row with the given year and month, in the sorted order of the
statement (`temp_df[...].iloc[0]`). -/
def lookupYM (rows : List QRow) (y : Int) (m : Nat) : Option QRow :=
  rows.find? (fun r => r.year == y && r.month == m)

/-- Body of the TTM loop (analysis.py 111-124) for one row of the safe-floated
sorted statement `snap`. -/
def ttmValue (snap : List QRow) (r : QRow) : Option Rat :=
  if r.month = 12 then r.value
  else
    match lookupYM snap (r.year - 1) 12, lookupYM snap (r.year - 1) r.month with
    | some a, some s => some (cellSafe r.value + cellSafe a.value - cellSafe s.value)
    | _, _ => Option.none

/-- `calculate_ttm_series` (analysis.py 98-126): sort by report date, apply
`_safe_float` to the whole column, then emit one TTM value per period; the
result is keyed and sorted by the same dates. -/
def calculate_ttm_series (rows : List QRow) : List QRow :=
  let snap := (sortRows rows).map (fun r => { r with value := some (cellSafe r.value) })
  snap.map (fun r => { r with value := ttmValue snap r })

/-- The TTM identity exactly as the spec states it (spec §3 TTMSeries), for
comparison against `calculate_ttm_series`: December periods return their own
cumulative value; otherwise prior-year December plus current minus prior-year
same month, unknown when either prior-year term is missing. -/
def ttm_spec_value (rows : List QRow) (r : QRow) : Option Rat :=
  if r.month = 12 then r.value
  else
    match lookupYM rows (r.year - 1) 12, lookupYM rows (r.year - 1) r.month with
    | some a, some s => some (cellSafe r.value + cellSafe a.value - cellSafe s.value)
    | _, _ => Option.none

/-! ## Daily valuation forward-fill join (analysis.py 149-171) -/

/-- Index lookup of the fundamental frame at a calendar date: the pandas left
join places the fundamental value on a price row exactly when the dates match;
a NaN entry (`none`) joins as NaN. -/
def fundLookup (fund : List (Nat × Option Rat)) (d : Nat) : Option Rat :=
  match fund.find? (fun e => e.1 == d) with
  | some e => e.2
  | Option.none => Option.none

/-- `kline.join(fund_df, how='left').ffill()` (analysis.py 162-164) on one
fundamental column: every column of the joined frame, the close included, is
forward-filled; `carryC` and `carryF` are the last seen close and fundamental
value. -/
def ffillJoin (fund : List (Nat × Option Rat)) :
    Option Rat → Option Rat → List (Nat × Option Rat) → List (Nat × Option Rat × Option Rat)
  | _, _, [] => []
  | carryC, carryF, (d, c) :: ks =>
    let c2 := match c with | some x => some x | Option.none => carryC
    let f2 := match fundLookup fund d with | some x => some x | Option.none => carryF
    (d, c2, f2) :: ffillJoin fund c2 f2 ks

/-- `dropna(subset=['收盘'])` on one joined row: a row is kept exactly when
its (forward-filled) close is present. -/
def keepClose (r : Nat × Option Rat × Option Rat) : Option (Nat × Rat × Option Rat) :=
  match r.2.1 with
  | some c => some (r.1, c, r.2.2)
  | Option.none => Option.none

/-- The daily valuation table of `prepare_advanced_data` restricted to one
fundamental column: the forward-filled join followed by
`dropna(subset=['收盘'])` (analysis.py 162-165), which removes exactly the
rows whose forward-filled close is still NaN. -/
def prepare_valuation_daily (kline fund : List (Nat × Option Rat)) :
    List (Nat × Rat × Option Rat) :=
  (ffillJoin fund Option.none Option.none kline).filterMap keepClose

/-! ## `_normalize_code` (data_fetcher.py 23-30) -/

/-- Python `str.zfill(width)`: left-pad with zeros, keeping a leading sign in
front of the padding. -/
def zfill (w : Nat) (s : String) : String :=
  if w ≤ s.length then s
  else
    let pad := List.replicate (w - s.length) '0'
    match s.data with
    | c :: rest => if c = '+' ∨ c = '-' then ⟨c :: (pad ++ rest)⟩ else ⟨pad ++ s.data⟩
    | [] => ⟨pad⟩

/-- The venue-prefix loop of `_normalize_code`: each of `sh`, `sz`, `SH`, `SZ`
is tested once, in order, and stripped when it matches (`code[2:]`). -/
def stripVenue (s : String) : String :=
  ["sh", "sz", "SH", "SZ"].foldl
    (fun acc p => if startsWithL p.data acc.data then ⟨acc.data.drop 2⟩ else acc) s

/-- `_normalize_code` (data_fetcher.py 23-30): strip whitespace, strip venue
prefixes, zero-pad to six digits.  Total on every string; it has no failure
path. -/
def _normalize_code (code : String) : String := zfill 6 (stripVenue (pyStrip code))

/-! ## `fetch_company_info` (data_fetcher.py 82-163) -/

/-- Result of `ak.stock_individual_info_em`: each row may be missing; the
share-count value is already passed through `_safe_float(_, 0.0)`. -/
structure EmInfo where
  name : Option String
  industry : Option String
  shares : Option Rat
deriving DecidableEq, Repr

/-- Result row of the `ak.stock_zh_a_spot_em` fallback: the two industry
labels as fetched (absent key modelled as `none`), and the safe-floated
price / total market value. -/
structure SpotInfo where
  ind1 : Option String
  ind2 : Option String
  price : Rat
  total_mv : Rat
deriving DecidableEq, Repr

/-- Baostock fallback results: basic-info name, industry row, safe-floated
`totalShare`; the whole record is `none` when baostock is unavailable, login
fails or the query raises. -/
structure BsInfo where
  name : Option String
  industry : Option String
  shares : Option Rat
deriving DecidableEq, Repr

/-- The record returned by `fetch_company_info`: exactly the three fields of
the source dictionary. -/
structure CompanyInfo where
  stock_name : String
  industry : String
  total_shares : Rat
deriving DecidableEq, Repr

/-- `fetch_company_info` (data_fetcher.py 82-163).  Defaults are the in-band
values `stock_name = code`, `industry = "未知"`, `total_shares = 0`; every
provider call is wrapped in `try/except`, so a raising provider is modelled by
`none` and the function is total. -/
def fetch_company_info (code : String) (em : Option EmInfo) (reg : Option String)
    (spot : Option SpotInfo) (bsi : Option BsInfo) : CompanyInfo :=
  let n1 := match em with | some e => e.name.getD code | Option.none => code
  let i1 := match em with | some e => e.industry.getD "未知" | Option.none => "未知"
  let s1 := match em with | some e => e.shares.getD 0 | Option.none => (0 : Rat)
  let n2 := if n1 = code then
      match reg with
      | some s => if s = "" then n1 else s
      | Option.none => n1
    else n1
  let is2 := if i1 = "未知" ∨ s1 = 0 then
      match spot with
      | some sp =>
        (if i1 = "未知" then
            (let v := sp.ind1.getD i1
             if v = "" then sp.ind2.getD i1 else v)
         else i1,
         if s1 = 0 ∧ sp.price > 0 ∧ sp.total_mv > 0 then sp.total_mv * 100000000 / sp.price else s1)
      | Option.none => (i1, s1)
    else (i1, s1)
  let i2 := is2.1
  let s2 := is2.2
  let nis3 := if i2 = "未知" ∨ s2 = 0 ∨ n2 = code then
      match bsi with
      | some b =>
        (if n2 = code then (match b.name with | some s => if s = "" then n2 else s | Option.none => n2) else n2,
         if i2 = "未知" then (match b.industry with | some s => if s = "" then i2 else s | Option.none => i2) else i2,
         if s2 = 0 then (match b.shares with | some v => v | Option.none => s2) else s2)
      | Option.none => (n2, i2, s2)
    else (n2, i2, s2)
  { stock_name := nis3.1, industry := nis3.2.1, total_shares := nis3.2.2 }

/-! ## `fetch_all_data` fan-out (data_fetcher.py 526-633) -/

/-- The `except` handler of the fan-out loop (data_fetcher.py 594-598): a
task's exception is caught and recorded as `None`. -/
def catchToOption {α : Type} : Except String α → Option α
  | Except.ok a => some a
  | Except.error _ => Option.none

/-- The concurrent fan-out (data_fetcher.py 588-598): every submitted category
fetcher has its result collected under its name, exceptions becoming `None`.
The result map is keyed by task name, so completion order is irrelevant. -/
def fan_out {α : Type} (tasks : List (String × Except String α)) : List (String × Option α) :=
  tasks.map (fun t => (t.1, catchToOption t.2))

/-- The aggregate result of `fetch_all_data`: normalized code, company fields,
and one entry per dispatched category (`none` marks an absent category). -/
structure AggResult (α : Type) where
  code : String
  stock_name : String
  industry : String
  total_shares : Rat
  results : List (String × Option α)

/-- `fetch_all_data` (data_fetcher.py 526-633) restricted to the behaviour the
claims are about: normalize the identifier, resolve the company profile first,
then fan out the category fetchers with per-task exception isolation.  The
cross-category enrichment steps (shareholder lookup, kline fallback, share
count from the abstract, current valuation) are themselves total and only add
fields; they contain no abort path. -/
def fetch_all_data {α : Type} (raw : String)
    (em : Option EmInfo) (reg : Option String) (spot : Option SpotInfo) (bsi : Option BsInfo)
    (tasks : List (String × Except String α)) : AggResult α :=
  let code := _normalize_code raw
  let ci := fetch_company_info code em reg spot bsi
  { code := code, stock_name := ci.stock_name, industry := ci.industry,
    total_shares := ci.total_shares, results := fan_out tasks }

/-! ## `fetch_current_valuation` (data_fetcher.py 390-524) -/

/-- A row of the `stock_zh_a_spot_em` snapshot; `none` models an absent key
(the source then keeps the current value via `row.get(key, current)`). -/
structure SpotQuote where
  price : Option Rat
  pe : Option Rat
  pb : Option Rat
  total_mv : Option Rat
  circ_mv : Option Rat
  turnover : Option Rat
  vol_quot : Option Rat
  change : Option Rat
deriving DecidableEq, Repr

/-- The valuation snapshot dictionary (data_fetcher.py 430-434); `vol_quot`
models the `volume_ratio` key and `source` the provider tag. -/
structure Snapshot where
  price : Rat
  pe_ttm : Rat
  pb : Rat
  total_mv : Rat
  circ_mv : Rat
  turnover : Rat
  vol_quot : Rat
  change_pct : Rat
  source : String
deriving DecidableEq, Repr

/-- The fallback price / day-over-day change from the last two closes
(data_fetcher.py 404-426): price is the last close; the change is computed
only when the previous close is positive. -/
def lastTwoDelta (closes : List Rat) : Rat × Rat :=
  if closes.length ≥ 2 then
    let p := closes.getD (closes.length - 1) 0
    let q := closes.getD (closes.length - 2) 0
    (p, if q > 0 then (p - q) / q * 100 else 0)
  else (0, 0)

/-- The initial `current_valuation` dictionary (data_fetcher.py 402-434):
fallback price and day-over-day change from the last two closes of the
already-fetched history when it has at least two rows, otherwise from the
ad-hoc 45-day history call (`hist`, `none` when that call raises); every
other field zero, tagged `source = "fallback"`. -/
def cvBase (kline hist : Option (List Rat)) : Snapshot :=
  let fb : Rat × Rat :=
    match kline with
    | some closes =>
      if closes.length ≥ 2 then lastTwoDelta closes
      else match hist with
        | some h => lastTwoDelta h
        | Option.none => (0, 0)
    | Option.none =>
      match hist with
      | some h => lastTwoDelta h
      | Option.none => (0, 0)
  { price := fb.1, pe_ttm := 0, pb := 0, total_mv := 0, circ_mv := 0,
    turnover := 0, vol_quot := 0, change_pct := fb.2, source := "fallback" }

/-- Tier 1 (data_fetcher.py 445-454): the dedicated indicator endpoint; when
its last row is available the pe/pb pair is written and the snapshot is
retagged `"lg_indicator"`. -/
def cvLg (lg : Option (Rat × Rat)) (s : Snapshot) : Snapshot :=
  match lg with
  | some pepb => { s with pe_ttm := pepb.1, pb := pepb.2, source := "lg_indicator" }
  | Option.none => s

/-- Tier 2 (data_fetcher.py 456-475): the broad market snapshot, attempted
only when both pe and pb are still zero; absent keys keep the current value
(`row.get(key, current)`). -/
def cvSpot (spot : Option SpotQuote) (s : Snapshot) : Snapshot :=
  if s.pe_ttm = 0 ∧ s.pb = 0 then
    match spot with
    | some row =>
      { s with
        price := row.price.getD s.price,
        pe_ttm := row.pe.getD s.pe_ttm,
        pb := row.pb.getD s.pb,
        total_mv := row.total_mv.getD 0,
        circ_mv := row.circ_mv.getD 0,
        turnover := row.turnover.getD 0,
        vol_quot := row.vol_quot.getD 0,
        change_pct := row.change.getD s.change_pct,
        source := "spot_em" }
    | Option.none => s
  else s

/-- Tier 3 (data_fetcher.py 477-515): the baostock daily indicator row
`(pe, pb, close, turn)`, attempted only when pe and pb are still zero; each
field is kept only when nonzero (Python `x or current`). -/
def cvBs (bsq : Option (Rat × Rat × Rat × Rat)) (s : Snapshot) : Snapshot :=
  if s.pe_ttm = 0 ∧ s.pb = 0 then
    match bsq with
    | some q =>
      { s with
        price := if q.2.2.1 ≠ 0 then q.2.2.1 else s.price,
        pe_ttm := if q.1 ≠ 0 then q.1 else s.pe_ttm,
        pb := if q.2.1 ≠ 0 then q.2.1 else s.pb,
        turnover := if q.2.2.2 ≠ 0 then q.2.2.2 else s.turnover,
        source := "baostock" }
    | Option.none => s
  else s

/-- The final local derivation (data_fetcher.py 517-520): when no market value
was found but a nonzero share count and a positive price are known, market
value is `price × shares`, and a snapshot still tagged `"fallback"` is
retagged `"derived"`.  (`shares.getD 0 ≠ 0` models Python truthiness of
`total_shares`: both `None` and `0` are falsy.) -/
def cvDerive (shares : Option Rat) (s : Snapshot) : Snapshot :=
  if s.total_mv = 0 ∧ shares.getD 0 ≠ 0 ∧ s.price > 0 then
    { s with
      total_mv := s.price * shares.getD 0,
      source := if s.source = "fallback" then "derived" else s.source }
  else s

/-- `fetch_current_valuation` (data_fetcher.py 390-524).  `kline` is the
already-fetched price history's close column; `hist` the closes of the ad-hoc
history call used when `kline` is missing or short (`none` when it raises);
`lg` the last row of the indicator endpoint reduced to its (pe, pb) pair;
`spot` the market-snapshot row; `bsq` the baostock `(pe, pb, close, turn)`
quadruple; `shares` the resolved total share count (`none` for Python `None`).
Every tier is wrapped in `try`/retry in the source, so a failing tier is
modelled by `none`. -/
def fetch_current_valuation (kline : Option (List Rat)) (hist : Option (List Rat))
    (lg : Option (Rat × Rat)) (spot : Option SpotQuote)
    (bsq : Option (Rat × Rat × Rat × Rat)) (shares : Option Rat) : Snapshot :=
  cvDerive shares (cvBs bsq (cvSpot spot (cvLg lg (cvBase kline hist))))

/-! ## Lemmas: the sort is the identity on sorted input -/

theorem rowLeB_of_rowLt {a b : QRow} (h : rowLt a b) : rowLeB a b = true := by
  rcases h with h | ⟨hy, hm⟩
  · simp [rowLeB, h]
  · simp [rowLeB, hy, Nat.le_of_lt hm]

theorem insertRow_cons_of_le (r x : QRow) (xs : List QRow) (h : rowLeB r x = true) :
    insertRow r (x :: xs) = r :: x :: xs := by
  simp [insertRow, h]

theorem sortRows_eq_self {rows : List QRow} (h : List.Pairwise rowLt rows) :
    sortRows rows = rows := by
  induction rows with
  | nil => rfl
  | cons x xs ih =>
    rw [List.pairwise_cons] at h
    have hs := ih h.2
    show insertRow x (sortRows xs) = x :: xs
    rw [hs]
    cases xs with
    | nil => rfl
    | cons y ys =>
      exact insertRow_cons_of_le _ _ _ (rowLeB_of_rowLt (h.1 y (List.mem_cons_self _ _)))

/-! ## Lemmas: the per-year walk as a global predecessor scan -/

theorem sqYearGo_cons_some (p r : QRow) (rs : List QRow) :
    sqYearGo (some p) (r :: rs) = stepQ p r :: sqYearGo (some r) rs := by
  by_cases h : r.month = 3 <;> simp [sqYearGo, stepQ, h]

theorem sqYearGo_cons_none (r : QRow) (rs : List QRow) :
    sqYearGo Option.none (r :: rs) = r :: sqYearGo (some r) rs := by
  by_cases h : r.month = 3 <;> simp [sqYearGo, h]

theorem sqYear_eq_go : ∀ l : List QRow, sqYear l = sqYearGo Option.none l := by
  intro l
  match l with
  | [] => rfl
  | [a] => simp [sqYear, sqYearGo_cons_none, sqYearGo]
  | a :: b :: t =>
    have h2 : (a :: b :: t).length = t.length + 2 := by simp [List.length_cons]
    rw [sqYear, if_neg (by omega)]

theorem zp_some_split :
    ∀ (rs : List QRow) (q : QRow) (yr : Int), q.year = yr →
      zp (some q) rs
        = sqYearGo (some q) (rs.takeWhile (sameYearB yr))
            ++ zp Option.none (rs.dropWhile (sameYearB yr)) := by
  intro rs
  induction rs with
  | nil => intro q yr _; rfl
  | cons x xs ih =>
    intro q yr hq
    by_cases hx : x.year = yr
    · have hxb : sameYearB yr x = true := by simp [sameYearB, hx]
      rw [List.takeWhile_cons, List.dropWhile_cons]
      simp only [hxb, if_true]
      rw [sqYearGo_cons_some]
      show zpStep q x :: zp (some x) xs = _
      rw [zpStep, if_pos (by rw [hq, hx]), ih x yr hx]
      rfl
    · have hxb : sameYearB yr x = false := by simp [sameYearB, hx]
      rw [List.takeWhile_cons, List.dropWhile_cons]
      simp only [hxb, Bool.false_eq_true, if_false]
      show zpStep q x :: zp (some x) xs = sqYearGo (some q) [] ++ zp Option.none (x :: xs)
      rw [zpStep, if_neg (by rw [hq]; exact fun hh => hx hh.symm)]
      rfl

theorem sqProcess_eq_zp : ∀ l : List QRow, sqProcess l = zp Option.none l := by
  have main : ∀ (n : Nat) (l : List QRow), l.length ≤ n → sqProcess l = zp Option.none l := by
    intro n
    induction n with
    | zero =>
      intro l h
      match l with
      | [] => rw [sqProcess]; rfl
    | succ n ih =>
      intro l h
      match l with
      | [] => rw [sqProcess]; rfl
      | r :: rs =>
        rw [sqProcess]
        have htw : (r :: rs).takeWhile (sameYearB r.year) = r :: rs.takeWhile (sameYearB r.year) := by
          rw [List.takeWhile_cons]
          simp [sameYearB]
        rw [htw, sqYear_eq_go, sqYearGo_cons_none]
        have hlen : (rs.dropWhile (sameYearB r.year)).length ≤ n := by
          have := length_dropWhile_le' (sameYearB r.year) rs
          have hr : rs.length ≤ n := by
            have := h
            simp only [List.length_cons] at this
            omega
          omega
        rw [ih _ hlen]
        show r :: (sqYearGo (some r) (rs.takeWhile (sameYearB r.year))
            ++ zp Option.none (rs.dropWhile (sameYearB r.year))) = zp Option.none (r :: rs)
        rw [← zp_some_split rs r r.year rfl]
        rfl
  exact fun l => main l.length l (Nat.le_refl _)

theorem zp_length : ∀ (p : Option QRow) (l : List QRow), (zp p l).length = l.length := by
  intro p l
  induction l generalizing p with
  | nil => cases p <;> rfl
  | cons x xs ih => cases p <;> simp [zp, ih]

theorem zp_some_getD_succ :
    ∀ (l : List QRow) (p : QRow) (i : Nat), i + 1 < l.length →
      (zp (some p) l).getD (i + 1) q0 = zpStep (l.getD i q0) (l.getD (i + 1) q0) := by
  intro l
  induction l with
  | nil => intro p i h; simp at h
  | cons x xs ih =>
    intro p i h
    show (zpStep p x :: zp (some x) xs).getD (i + 1) q0 = _
    rw [List.getD_cons_succ]
    cases i with
    | zero =>
      cases xs with
      | nil => simp at h
      | cons y ys =>
        show (zpStep x y :: zp (some y) ys).getD 0 q0 = _
        simp [List.getD_cons_zero, List.getD_cons_succ]
    | succ j =>
      have h' : j + 1 < xs.length := by
        simp only [List.length_cons] at h
        omega
      rw [ih x j h']
      simp [List.getD_cons_succ]

theorem zp_none_getD_succ (l : List QRow) (i : Nat) (h : i + 1 < l.length) :
    (zp Option.none l).getD (i + 1) q0 = zpStep (l.getD i q0) (l.getD (i + 1) q0) := by
  cases l with
  | nil => simp at h
  | cons x xs =>
    show (x :: zp (some x) xs).getD (i + 1) q0 = _
    rw [List.getD_cons_succ]
    cases i with
    | zero =>
      cases xs with
      | nil => simp at h
      | cons y ys =>
        show (zpStep x y :: zp (some y) ys).getD 0 q0 = _
        simp [List.getD_cons_zero, List.getD_cons_succ]
    | succ j =>
      have h' : j + 1 < xs.length := by
        simp only [List.length_cons] at h
        omega
      rw [zp_some_getD_succ xs x j h']
      simp [List.getD_cons_succ]

theorem calc_single_quarter_eq_zp {rows : List QRow} (hs : List.Pairwise rowLt rows) :
    calculate_single_quarter_data rows = zp Option.none rows := by
  unfold calculate_single_quarter_data
  rw [sortRows_eq_self hs, sqProcess_eq_zp]

/-! ## Claim C1: cumulative-to-quarterly decomposition -/

/-- C1: for a flow-type statement whose periods are sorted strictly ascending
by end date, `calculate_single_quarter_data` leaves each March value at its raw
cumulative value, and each later period that directly follows a period of the
same calendar year gets cumulative(period) minus cumulative(previous same-year
period).  (In a sorted, duplicate-free statement the list predecessor of the
same year is exactly the previous same-year period.) -/
theorem c1_single_quarter_decomposition (rows : List QRow) (hs : List.Pairwise rowLt rows) :
    (calculate_single_quarter_data rows).length = rows.length ∧
    (∀ i, i < rows.length → (rows.getD i q0).month = 3 →
      (calculate_single_quarter_data rows).getD i q0 = rows.getD i q0) ∧
    (∀ i a b, i + 1 < rows.length →
      (rows.getD i q0).year = (rows.getD (i + 1) q0).year →
      (rows.getD (i + 1) q0).month ≠ 3 →
      (rows.getD (i + 1) q0).value = some a →
      (rows.getD i q0).value = some b →
      (calculate_single_quarter_data rows).getD (i + 1) q0
        = { rows.getD (i + 1) q0 with value := some (a - b) }) := by
  have hc := calc_single_quarter_eq_zp hs
  refine ⟨by rw [hc]; exact zp_length _ _, ?_, ?_⟩
  · intro i hi hm
    rw [hc]
    cases i with
    | zero =>
      cases rows with
      | nil => simp at hi
      | cons r rs => rfl
    | succ j =>
      rw [zp_none_getD_succ _ j hi]
      by_cases hy : (rows.getD j q0).year = (rows.getD (j + 1) q0).year
      · unfold zpStep
        rw [if_pos hy]
        unfold stepQ
        rw [if_pos hm]
      · unfold zpStep
        rw [if_neg hy]
  · intro i a b h1 hyear hm hva hvb
    rw [hc, zp_none_getD_succ _ i h1]
    unfold zpStep
    rw [if_pos hyear]
    simp only [stepQ, if_neg hm]
    have hc1 : cellSafe (rows.getD (i + 1) q0).value = a := by rw [hva]; rfl
    have hc2 : cellSafe (rows.getD i q0).value = b := by rw [hvb]; rfl
    rw [hc1, hc2]
    by_cases hz : a ≠ 0 ∨ b ≠ 0
    · rw [if_pos hz]
    · rw [if_neg hz]
      push_neg at hz
      obtain ⟨ha, hb⟩ := hz
      subst ha
      subst hb
      have h0 : (0 : Rat) - 0 = 0 := by norm_num
      rw [h0, ← hva]

/-- C1 witness: the spec scenario Mar=100, Jun=250, Sep=400, Dec=600; the June
entry of the decomposed series is 250 − 100 = 150. -/
theorem c1_single_quarter_decomposition_witness :
    (calculate_single_quarter_data
        [⟨2023, 3, some 100⟩, ⟨2023, 6, some 250⟩, ⟨2023, 9, some 400⟩, ⟨2023, 12, some 600⟩]).getD 1 q0
      = ⟨2023, 6, some 150⟩ := by
  have h := (c1_single_quarter_decomposition
      [⟨2023, 3, some 100⟩, ⟨2023, 6, some 250⟩, ⟨2023, 9, some 400⟩, ⟨2023, 12, some 600⟩]
      (by decide)).2.2 0 250 100 (by decide) (by decide) (by decide) (by decide) (by decide)
  refine h.trans ?_
  norm_num [List.getD_cons_succ, List.getD_cons_zero]

/-! ## Claim C3: period with no previous same-year period -/

/-- C3 counterexample: a calendar year containing only one (June) filing.  The
claim says the period's quarterly value is left unknown; the code leaves the
raw cumulative value 250 in place, a numeric value, not an unknown marker. -/
theorem c3_counterexample :
    (calculate_single_quarter_data [⟨2023, 6, some 250⟩]).map QRow.value = [some (250 : Rat)] ∧
    some (250 : Rat) ≠ (Option.none : Option Rat) := by
  constructor
  · rw [calc_single_quarter_eq_zp (by decide)]
    decide
  · decide

/-- C3 (amended): for every period with no earlier period of the same calendar
year, `calculate_single_quarter_data` leaves the row entirely unchanged — it
performs no subtraction, but the retained value is the raw cumulative value,
not an unknown marker. -/
theorem c3_missing_prev_keeps_cumulative (rows : List QRow) (hs : List.Pairwise rowLt rows) :
    ∀ i, i < rows.length →
      (∀ j, j < i → (rows.getD j q0).year ≠ (rows.getD i q0).year) →
      (calculate_single_quarter_data rows).getD i q0 = rows.getD i q0 := by
  intro i hi hno
  rw [calc_single_quarter_eq_zp hs]
  cases i with
  | zero =>
    cases rows with
    | nil => simp at hi
    | cons r rs => rfl
  | succ j =>
    rw [zp_none_getD_succ _ j hi]
    unfold zpStep
    rw [if_neg (hno j (Nat.lt_succ_self j))]

/-- C3 witness: a year whose earliest filing is June keeps the June row (with
its cumulative value 250) unchanged. -/
theorem c3_missing_prev_keeps_cumulative_witness :
    (calculate_single_quarter_data [⟨2023, 6, some 250⟩, ⟨2023, 9, some 400⟩]).getD 0 q0
      = ⟨2023, 6, some 250⟩ := by
  have h := c3_missing_prev_keeps_cumulative [⟨2023, 6, some 250⟩, ⟨2023, 9, some 400⟩]
      (by decide) 0 (by decide) (fun j hj => absurd hj (Nat.not_lt_zero j))
  exact h.trans (by decide)

/-! ## Claim C2: the TTM identity -/

theorem lookupYM_map_safe (rows : List QRow) (y : Int) (m : Nat) :
    lookupYM (rows.map (fun r => { r with value := some (cellSafe r.value) })) y m
      = (lookupYM rows y m).map (fun r => { r with value := some (cellSafe r.value) }) := by
  unfold lookupYM
  rw [List.find?_map]
  rfl

theorem ttmValue_snap_eq (rows : List QRow) (r : QRow) (hv : r.value.isSome) :
    ttmValue (rows.map (fun x => { x with value := some (cellSafe x.value) }))
      { r with value := some (cellSafe r.value) } = ttm_spec_value rows r := by
  unfold ttmValue ttm_spec_value
  dsimp only
  by_cases hm : r.month = 12
  case pos =>
    rw [if_pos hm, if_pos hm]
    obtain ⟨v, hv2⟩ := Option.isSome_iff_exists.mp hv
    rw [hv2]
    rfl
  case neg =>
    rw [if_neg hm, if_neg hm, lookupYM_map_safe, lookupYM_map_safe]
    cases h1 : lookupYM rows (r.year - 1) 12 with
    | none => rfl
    | some a =>
      cases h2 : lookupYM rows (r.year - 1) r.month with
      | none => rfl
      | some s => rfl

/-- C2: on a sorted, duplicate-free statement with numeric cumulative values,
`calculate_ttm_series` realises exactly the spec's TTM identity: December
periods keep their cumulative value; any other period gets
cumulative(period) + cumulative(Dec, prior year) minus cumulative(same month,
prior year), and is unknown when either prior-year term is absent. -/
theorem c2_ttm_identity (rows : List QRow) (hs : List.Pairwise rowLt rows)
    (hnum : ∀ r ∈ rows, r.value.isSome) :
    calculate_ttm_series rows
      = rows.map (fun r => { r with value := ttm_spec_value rows r }) := by
  simp only [calculate_ttm_series]
  rw [sortRows_eq_self hs, List.map_map]
  refine List.map_congr_left ?_
  intro r hr
  have h := ttmValue_snap_eq rows r (hnum r hr)
  simp only [Function.comp]
  rw [h]

/-- C2 witness: the spec scenario cumulative(Jun-2023)=70, cumulative(Dec-2023)
=150, cumulative(Jun-2024)=80 gives TTM(Jun-2024) = 80+150−70 = 160, TTM(Dec-
2023) = 150, and TTM(Jun-2023) unknown (no 2022 filings). -/
theorem c2_ttm_identity_witness :
    calculate_ttm_series [⟨2023, 6, some 70⟩, ⟨2023, 12, some 150⟩, ⟨2024, 6, some 80⟩]
      = [⟨2023, 6, Option.none⟩, ⟨2023, 12, some 150⟩, ⟨2024, 6, some 160⟩] := by
  have h := c2_ttm_identity [⟨2023, 6, some 70⟩, ⟨2023, 12, some 150⟩, ⟨2024, 6, some 80⟩]
      (by decide) (by decide)
  refine h.trans ?_
  simp [ttm_spec_value, lookupYM, List.find?, cellSafe]
  norm_num

/-! ## Claims C4 and C5: the daily valuation forward-fill join -/

theorem ffillJoin_cons (fund : List (Nat × Option Rat)) (cC cF : Option Rat)
    (d : Nat) (c : Option Rat) (ks : List (Nat × Option Rat)) :
    ffillJoin fund cC cF ((d, c) :: ks)
      = (d, (match c with | some x => some x | Option.none => cC),
            (match fundLookup fund d with | some x => some x | Option.none => cF))
          :: ffillJoin fund (match c with | some x => some x | Option.none => cC)
              (match fundLookup fund d with | some x => some x | Option.none => cF) ks := rfl

theorem ffillJoin_dates (fund : List (Nat × Option Rat)) :
    ∀ (ks : List (Nat × Option Rat)) (cC cF : Option Rat),
      (ffillJoin fund cC cF ks).map (fun r => r.1) = ks.map Prod.fst := by
  intro ks
  induction ks with
  | nil => intro cC cF; rfl
  | cons e ks ih =>
    intro cC cF
    obtain ⟨d, c⟩ := e
    simp [ffillJoin_cons, ih]

theorem keep_after_close (fund : List (Nat × Option Rat)) :
    ∀ (ks : List (Nat × Option Rat)) (c : Rat) (cF : Option Rat),
      ((ffillJoin fund (some c) cF ks).filterMap keepClose).map (fun r => r.1)
        = ks.map Prod.fst := by
  intro ks
  induction ks with
  | nil => intro c cF; rfl
  | cons e ks ih =>
    intro c cF
    obtain ⟨d, cc⟩ := e
    cases cc with
    | none => simp [ffillJoin_cons, keepClose, ih]
    | some x => simp [ffillJoin_cons, keepClose, ih]

theorem c5_helper (fund : List (Nat × Option Rat)) :
    ∀ (ks : List (Nat × Option Rat)) (cF : Option Rat),
      ((ffillJoin fund Option.none cF ks).filterMap keepClose).map (fun r => r.1)
        = (ks.dropWhile (fun e => e.2.isNone)).map Prod.fst := by
  intro ks
  induction ks with
  | nil => intro cF; rfl
  | cons e ks ih =>
    intro cF
    obtain ⟨d, cc⟩ := e
    cases cc with
    | none => simp [ffillJoin_cons, keepClose, List.dropWhile, ih]
    | some x => simp [ffillJoin_cons, keepClose, List.dropWhile, keep_after_close]

/-- C5 counterexample: with closes known on days 1 and 2 and the first known
fundamental value dated day 2, the day-1 row — dated before the first known
fundamental value — is NOT dropped: it stays in the output with an unknown
fundamental cell. -/
theorem c5_counterexample :
    ((1 : Nat), (10 : Rat), (Option.none : Option Rat))
      ∈ prepare_valuation_daily [(1, some 10), (2, some 11)] [(2, some 7)] := by
  decide

/-- C5 (amended): the `dropna(subset=['收盘'])` step drops exactly the leading
rows whose (forward-filled) close price is unknown; the dropping rule never
looks at the fundamental columns, so rows dated before the first known
fundamental value are retained whenever a close is known. -/
theorem c5_drops_only_unknown_close_rows (kline fund : List (Nat × Option Rat)) :
    (prepare_valuation_daily kline fund).map (fun r => r.1)
      = (kline.dropWhile (fun e => e.2.isNone)).map Prod.fst := by
  unfold prepare_valuation_daily
  exact c5_helper fund kline Option.none

/-- C5 witness: a leading row with unknown close is dropped; nothing else is. -/
theorem c5_drops_only_unknown_close_rows_witness :
    (prepare_valuation_daily [(1, Option.none), (2, some 11)] [(2, some (7 : Rat))]).map
        (fun r => r.1) = [2] :=
  (c5_drops_only_unknown_close_rows [(1, Option.none), (2, some 11)] [(2, some 7)]).trans
    (by decide)

theorem fundLookup_none_of (fund : List (Nat × Option Rat)) (x : Nat)
    (h : ∀ e ∈ fund, e.1 = x → e.2 = Option.none) : fundLookup fund x = Option.none := by
  unfold fundLookup
  cases hf : fund.find? (fun e => e.1 == x) with
  | none => rfl
  | some e =>
    have hm := List.mem_of_find?_eq_some hf
    have hp := List.find?_some hf
    simp only [beq_iff_eq] at hp
    exact h e hm hp

theorem c4_inner (fund : List (Nat × Option Rat)) (d1 d2 t : Nat) (v1 : Rat)
    (hnomid : ∀ e ∈ fund, d1 < e.1 → e.1 < d2 → e.2 = Option.none)
    (ht1 : d1 < t) (ht2 : t < d2) :
    ∀ (ks : List (Nat × Option Rat)) (cC : Option Rat),
      List.Pairwise (fun a b => a.1 < b.1) ks →
      (∀ e ∈ ks, d1 < e.1) →
      ∀ r ∈ ffillJoin fund cC (some v1) ks, r.1 = t → r.2.2 = some v1 := by
  intro ks
  induction ks with
  | nil =>
    intro cC _ _ r hr
    simp [ffillJoin] at hr
  | cons e ks ih =>
    intro cC hp hall r hr het
    obtain ⟨d, c⟩ := e
    rw [List.pairwise_cons] at hp
    rw [ffillJoin_cons] at hr
    by_cases hd2 : d < d2
    · have hdl : fundLookup fund d = Option.none := by
        refine fundLookup_none_of fund d ?_
        intro e' he' hed
        exact hnomid e' he' (hed ▸ hall (d, c) (List.mem_cons_self _ _)) (hed ▸ hd2)
      simp only [hdl] at hr
      rcases List.mem_cons.mp hr with hr0 | hrtail
      · rw [hr0]
      · exact ih _ hp.2 (fun e' he' => hall e' (List.mem_cons_of_mem _ he')) r hrtail het
    · rcases List.mem_cons.mp hr with hr0 | hrtail
      · exfalso
        rw [hr0] at het
        dsimp only at het
        omega
      · exfalso
        have hmem := List.mem_map_of_mem (fun (x : Nat × Option Rat × Option Rat) => x.1) hrtail
        rw [ffillJoin_dates] at hmem
        dsimp only at hmem
        obtain ⟨e', he', heq⟩ := List.mem_map.mp hmem
        have hlt : d < e'.1 := hp.1 e' he'
        omega

theorem c4_outer (fund : List (Nat × Option Rat)) (d1 d2 t : Nat) (v1 : Rat)
    (hd1 : fundLookup fund d1 = some v1)
    (hnomid : ∀ e ∈ fund, d1 < e.1 → e.1 < d2 → e.2 = Option.none)
    (ht1 : d1 < t) (ht2 : t < d2) :
    ∀ (ks : List (Nat × Option Rat)) (cC cF : Option Rat),
      List.Pairwise (fun a b => a.1 < b.1) ks →
      d1 ∈ ks.map Prod.fst →
      ∀ r ∈ ffillJoin fund cC cF ks, r.1 = t → r.2.2 = some v1 := by
  intro ks
  induction ks with
  | nil =>
    intro cC cF _ hmem
    simp at hmem
  | cons e ks ih =>
    intro cC cF hp hmem r hr het
    obtain ⟨d, c⟩ := e
    rw [List.pairwise_cons] at hp
    rw [ffillJoin_cons] at hr
    by_cases hdd : d = d1
    · subst hdd
      simp only [hd1] at hr
      rcases List.mem_cons.mp hr with hr0 | hrtail
      · exfalso
        rw [hr0] at het
        dsimp only at het
        omega
      · exact c4_inner fund d d2 t v1 hnomid ht1 ht2 ks _ hp.2
          (fun e' he' => hp.1 e' he') r hrtail het
    · have hmem' : d1 ∈ ks.map Prod.fst := by
        rw [List.map_cons] at hmem
        rcases List.mem_cons.mp hmem with h | h
        · exact absurd h.symm hdd
        · exact h
      rcases List.mem_cons.mp hr with hr0 | hrtail
      · exfalso
        obtain ⟨e', he', heq⟩ := List.mem_map.mp hmem'
        have hlt : d < e'.1 := hp.1 e' he'
        rw [hr0] at het
        dsimp only at het
        omega
      · exact ih _ _ hp.2 hmem' r hrtail het

/-- C4 counterexample: the fundamental value 5 is known on day 1 and the next
known fundamental value is on day 3, but day 1 is not a trading day.  The
trading day 2 lies strictly between the two known fundamental dates, yet its
row carries no fundamental value at all — the left join dropped the day-1
fundamental instead of carrying it forward. -/
theorem c4_counterexample :
    prepare_valuation_daily [(2, some 10)] [(1, some (5 : Rat)), (3, some 7)]
      = [(2, 10, Option.none)] ∧ (Option.none : Option Rat) ≠ some (5 : Rat) := by
  constructor
  · decide
  · decide

/-- C4 (amended): for every trading day `t` strictly between two consecutive
known fundamental dates `d1 < d2`, the daily valuation row at `t` carries the
earlier value `v1` unchanged, PROVIDED the earlier fundamental date `d1` is
itself on the price calendar; fundamentals dated off the calendar are dropped
by the left join rather than forward-filled. -/
theorem c4_forward_fill_on_calendar (kline fund : List (Nat × Option Rat))
    (d1 d2 t : Nat) (v1 : Rat)
    (hsort : List.Pairwise (fun a b => a.1 < b.1) kline)
    (hd1 : fundLookup fund d1 = some v1)
    (hmem : d1 ∈ kline.map Prod.fst)
    (hnomid : ∀ e ∈ fund, d1 < e.1 → e.1 < d2 → e.2 = Option.none)
    (ht1 : d1 < t) (ht2 : t < d2) :
    ∀ r ∈ prepare_valuation_daily kline fund, r.1 = t → r.2.2 = some v1 := by
  intro r hr het
  unfold prepare_valuation_daily at hr
  obtain ⟨r0, hr0, hk⟩ := List.mem_filterMap.mp hr
  have hkk : r.1 = r0.1 ∧ r.2.2 = r0.2.2 := by
    unfold keepClose at hk
    cases hc : r0.2.1 with
    | none =>
      rw [hc] at hk
      simp at hk
    | some cv =>
      rw [hc] at hk
      have h2 := Option.some.inj hk
      rw [← h2]
      exact ⟨rfl, rfl⟩
  rw [hkk.1] at het
  rw [hkk.2]
  exact c4_outer fund d1 d2 t v1 hd1 hnomid ht1 ht2 kline Option.none Option.none
    hsort hmem r0 hr0 het

/-- C4 witness: closes on days 1, 2, 3; fundamentals 5 on day 1 and 7 on day
3; the in-between trading day 2 carries the earlier value 5. -/
theorem c4_forward_fill_on_calendar_witness :
    prepare_valuation_daily [(1, some 9), (2, some 10), (3, some 11)]
        [(1, some (5 : Rat)), (3, some 7)]
      = [(1, 9, some 5), (2, 10, some 5), (3, 11, some 7)] ∧
    ((2 : Nat), (10 : Rat), some (5 : Rat)).2.2 = some (5 : Rat) := by
  constructor
  · decide
  · exact c4_forward_fill_on_calendar [(1, some 9), (2, some 10), (3, some 11)]
      [(1, some 5), (3, some 7)] 1 3 2 5 (by decide) (by decide) (by decide) (by decide)
      (by decide) (by decide) (2, 10, some 5) (by decide) rfl

/-! ## Claim C6: partial-failure isolation in the fan-out -/

/-- C6: if one category fetcher fails, `fetch_all_data` records that category
as absent while every successfully fetched category keeps its value; the
fan-out converts every exception into an absence marker instead of
propagating it. -/
theorem c6_partial_failure_isolation {α : Type} (raw : String)
    (em : Option EmInfo) (reg : Option String) (spot : Option SpotInfo) (bsi : Option BsInfo)
    (tasks : List (String × Except String α)) (n e : String)
    (hn : (n, Except.error e) ∈ tasks) :
    (n, (Option.none : Option α)) ∈ (fetch_all_data raw em reg spot bsi tasks).results ∧
    (∀ (m : String) (v : α), (m, Except.ok v) ∈ tasks →
      (m, some v) ∈ (fetch_all_data raw em reg spot bsi tasks).results) := by
  constructor
  · have h := List.mem_map_of_mem (fun t : String × Except String α => (t.1, catchToOption t.2)) hn
    simpa [fetch_all_data, fan_out, catchToOption] using h
  · intro m v hm
    have h := List.mem_map_of_mem (fun t : String × Except String α => (t.1, catchToOption t.2)) hm
    simpa [fetch_all_data, fan_out, catchToOption] using h

/-- C6 witness: with the kline fetcher throwing and the dividend fetcher
succeeding, the aggregate records kline as absent and keeps the dividend
value. -/
theorem c6_partial_failure_isolation_witness :
    ("kline", (Option.none : Option Nat))
        ∈ (fetch_all_data "600519" Option.none Option.none Option.none Option.none
            [("kline", Except.error "boom"), ("dividend", Except.ok 1)]).results ∧
    ("dividend", some 1)
        ∈ (fetch_all_data "600519" Option.none Option.none Option.none Option.none
            [("kline", Except.error "boom"), ("dividend", Except.ok 1)]).results := by
  have h := c6_partial_failure_isolation "600519" Option.none Option.none Option.none Option.none
      [("kline", Except.error "boom"), ("dividend", Except.ok (1 : Nat))] "kline" "boom" (by simp)
  exact ⟨h.1, h.2 "dividend" 1 (by simp)⟩

/-! ## Claim C7: abort behaviour of `fetch_all_data` -/

/-- C7 counterexample: the claim says an empty security identifier aborts the
request.  It does not: `_normalize_code` zero-pads the empty string to
`"000000"` and `fetch_all_data` proceeds to a normal aggregate record whose
failed categories are merely absent. -/
theorem c7_counterexample :
    _normalize_code "" = "000000" ∧
    (fetch_all_data "" Option.none Option.none Option.none Option.none
        ([("financial_abstract", Except.error "HTTPError")]
          : List (String × Except String Nat))).code = "000000" ∧
    (fetch_all_data "" Option.none Option.none Option.none Option.none
        ([("financial_abstract", Except.error "HTTPError")]
          : List (String × Except String Nat))).results
      = [("financial_abstract", Option.none)] := by
  refine ⟨by decide, by decide, by decide⟩

/-- C7 (amended): `fetch_all_data` never aborts, for any identifier: the
identifier — the empty string included — is normalized to a six-character
code, and every failing category fetch is recorded as an absent field rather
than propagated; no input reaches an error path. -/
theorem c7_never_aborts {α : Type} (raw : String) (em : Option EmInfo) (reg : Option String)
    (spot : Option SpotInfo) (bsi : Option BsInfo) (tasks : List (String × Except String α)) :
    (fetch_all_data raw em reg spot bsi tasks).code = _normalize_code raw ∧
    (∀ (n e : String), (n, Except.error e) ∈ tasks →
      (n, (Option.none : Option α)) ∈ (fetch_all_data raw em reg spot bsi tasks).results) := by
  constructor
  · simp only [fetch_all_data]
  · intro n e hn
    have h := List.mem_map_of_mem (fun t : String × Except String α => (t.1, catchToOption t.2)) hn
    simpa [fetch_all_data, fan_out, catchToOption] using h

/-- C7 witness: a venue-prefixed identifier normalizes and a failing category
becomes absent. -/
theorem c7_never_aborts_witness :
    (fetch_all_data "sh600519" Option.none Option.none Option.none Option.none
        [("kline", Except.error "x"), ("cash_flow", Except.ok (3 : Nat))]).code
      = _normalize_code "sh600519" ∧
    ("kline", (Option.none : Option Nat))
      ∈ (fetch_all_data "sh600519" Option.none Option.none Option.none Option.none
          [("kline", Except.error "x"), ("cash_flow", Except.ok 3)]).results := by
  have h := c7_never_aborts "sh600519" Option.none Option.none Option.none Option.none
      [("kline", Except.error "x"), ("cash_flow", Except.ok (3 : Nat))]
  exact ⟨h.1, h.2 "kline" "x" (by simp)⟩

/-! ## Claim C9: `_safe_float` on malformed input -/

/-- C9 counterexample: with the module's default of `0.0`, every malformed or
placeholder input is mapped to `0.0` — the unknown sentinel is exactly zero,
not distinct from it. -/
theorem c9_counterexample :
    _safe_float (PyVal.str "--") (some 0) = some 0 ∧
    _safe_float PyVal.nan (some 0) = some 0 ∧
    _safe_float (PyVal.str "") (some 0) = some 0 ∧
    _safe_float (PyVal.str "abc") (some 0) = some 0 := by
  refine ⟨by decide, rfl, by decide, by decide⟩

/-- C9 (amended): for every malformed or placeholder input (None, NaN, '--',
the empty string, or any unparseable string), `_safe_float` returns the
caller-supplied default without raising.  The module default is `0.0`, so the
sentinel coincides with zero; a caller needing a distinct marker passes `None`
(`Option.none`). -/
theorem c9_default_sentinel (d : Option Rat) :
    _safe_float PyVal.pnone d = d ∧
    _safe_float PyVal.nan d = d ∧
    _safe_float (PyVal.str "--") d = d ∧
    _safe_float (PyVal.str "") d = d ∧
    (∀ s : String, s ≠ "--" → s ≠ "" → parseFloat? s = Option.none →
      _safe_float (PyVal.str s) d = d) := by
  refine ⟨rfl, rfl, by simp [_safe_float], by simp [_safe_float], ?_⟩
  intro s h1 h2 hp
  simp [_safe_float, h1, h2, hp]

/-- C9 witness: an unparseable string maps to the `None` default, and to `0.0`
under the module default. -/
theorem c9_default_sentinel_witness :
    _safe_float (PyVal.str "abc") Option.none = Option.none ∧
    _safe_float (PyVal.str "--") (some 0) = some 0 := by
  have h1 := (c9_default_sentinel Option.none).2.2.2.2 "abc" (by decide) (by decide) (by decide)
  have h2 := (c9_default_sentinel (some 0)).2.2.1
  exact ⟨h1, h2⟩

/-! ## Claim C10: `fetch_company_info` defaults -/

/-- C10: `fetch_company_info` is total (every provider call is wrapped in
`try/except`, modelled by the `Option` inputs) and returns a record with
exactly the fields `stock_name`, `industry`, `total_shares`.  When no provider
resolves anything, the in-band defaults are the input code, `"未知"` and `0`;
and a fully-unresolved share count produces the very same record as a provider
reporting a genuine share count of zero — the two are indistinguishable. -/
theorem c10_company_info_defaults (code : String) :
    fetch_company_info code Option.none Option.none Option.none Option.none
      = { stock_name := code, industry := "未知", total_shares := 0 } ∧
    fetch_company_info code Option.none Option.none Option.none Option.none
      = fetch_company_info code
          (some { name := Option.none, industry := Option.none, shares := some 0 })
          Option.none Option.none Option.none := by
  constructor
  · simp [fetch_company_info]
  · simp [fetch_company_info]

/-- C10 witness: concrete code with every provider failing. -/
theorem c10_company_info_defaults_witness :
    fetch_company_info "600519" Option.none Option.none Option.none Option.none
      = { stock_name := "600519", industry := "未知", total_shares := 0 } :=
  (c10_company_info_defaults "600519").1

/-! ## Claim C8: current-valuation fallback tier -/

theorem cvLg_source (lg : Option (Rat × Rat)) (s : Snapshot) :
    (cvLg lg s).source = s.source ∨ (cvLg lg s).source = "lg_indicator" := by
  cases lg <;> simp [cvLg]

theorem cvSpot_source (sp : Option SpotQuote) (s : Snapshot) :
    (cvSpot sp s).source = s.source ∨ (cvSpot sp s).source = "spot_em" := by
  unfold cvSpot
  by_cases hc : s.pe_ttm = 0 ∧ s.pb = 0
  · rw [if_pos hc]
    cases sp <;> simp
  · rw [if_neg hc]
    left
    rfl

theorem cvBs_source (b : Option (Rat × Rat × Rat × Rat)) (s : Snapshot) :
    (cvBs b s).source = s.source ∨ (cvBs b s).source = "baostock" := by
  unfold cvBs
  by_cases hc : s.pe_ttm = 0 ∧ s.pb = 0
  · rw [if_pos hc]
    cases b <;> simp
  · rw [if_neg hc]
    left
    rfl

theorem cvDerive_source (sh : Option Rat) (s : Snapshot) :
    (cvDerive sh s).source = s.source ∨ (cvDerive sh s).source = "derived" := by
  unfold cvDerive
  by_cases hc : s.total_mv = 0 ∧ sh.getD 0 ≠ 0 ∧ s.price > 0
  · rw [if_pos hc]
    by_cases hf : s.source = "fallback"
    · right
      simp [hf]
    · left
      simp [hf]
  · rw [if_neg hc]
    left
    rfl

theorem fetch_current_valuation_source_mem (k h : Option (List Rat)) (lg : Option (Rat × Rat))
    (sp : Option SpotQuote) (b : Option (Rat × Rat × Rat × Rat)) (sh : Option Rat) :
    (fetch_current_valuation k h lg sp b sh).source
      ∈ (["fallback", "lg_indicator", "spot_em", "baostock", "derived"] : List String) := by
  unfold fetch_current_valuation
  have h0 : (cvBase k h).source = "fallback" := rfl
  have h1 := cvLg_source lg (cvBase k h)
  have h2 := cvSpot_source sp (cvLg lg (cvBase k h))
  have h3 := cvBs_source b (cvSpot sp (cvLg lg (cvBase k h)))
  have h4 := cvDerive_source sh (cvBs b (cvSpot sp (cvLg lg (cvBase k h))))
  rcases h4 with h4 | h4
  · rw [h4]
    rcases h3 with h3 | h3
    · rw [h3]
      rcases h2 with h2 | h2
      · rw [h2]
        rcases h1 with h1 | h1
        · rw [h1, h0]
          simp
        · rw [h1]
          simp
      · rw [h2]
        simp
    · rw [h3]
      simp
  · rw [h4]
    simp

/-- C8 counterexample: all provider tiers fail and the last two closes are
10.0 and 10.5, but a nonzero resolved share count is supplied; the final
local-derivation step then computes `total_mv = price × shares` and retags the
snapshot `source = "derived"`, not `"fallback"` as the claim states. -/
theorem c8_counterexample :
    (fetch_current_valuation (some [10, 21/2]) Option.none Option.none Option.none Option.none
        (some 2)).source = "derived" ∧ ("derived" : String) ≠ "fallback" := by
  constructor
  · norm_num [fetch_current_valuation, cvBase, cvLg, cvSpot, cvBs, cvDerive, lastTwoDelta]
  · decide

/-- C8 (amended): when every provider tier fails (indicator, market snapshot,
baostock all absent) and the already-fetched price history ends in closes 10.0
then 10.5, the snapshot has price 10.5 and change_pct 5.0; its source tag is
`"fallback"` when no nonzero share count was resolved, and `"derived"` when a
nonzero share count lets the code compute market value locally.  Moreover, for
every input whatsoever the snapshot's source tag is one of the five tier tags
`fallback`, `lg_indicator`, `spot_em`, `baostock`, `derived`. -/
theorem c8_fallback_snapshot (closes : List Rat) (hist : Option (List Rat)) (shares : Option Rat)
    (h2 : closes.length ≥ 2)
    (hlast : closes.getD (closes.length - 1) 0 = 21/2)
    (hprev : closes.getD (closes.length - 2) 0 = 10) :
    ((fetch_current_valuation (some closes) hist Option.none Option.none Option.none
        shares).price = 21/2 ∧
     (fetch_current_valuation (some closes) hist Option.none Option.none Option.none
        shares).change_pct = 5 ∧
     (fetch_current_valuation (some closes) hist Option.none Option.none Option.none
        shares).source = if shares.getD 0 ≠ 0 then "derived" else "fallback") ∧
    (∀ (k h : Option (List Rat)) (lg : Option (Rat × Rat)) (sp : Option SpotQuote)
        (b : Option (Rat × Rat × Rat × Rat)) (sh : Option Rat),
      (fetch_current_valuation k h lg sp b sh).source
        ∈ (["fallback", "lg_indicator", "spot_em", "baostock", "derived"] : List String)) := by
  have hlt : lastTwoDelta closes = (21/2, 5) := by
    simp only [lastTwoDelta]
    rw [if_pos h2, hlast, hprev]
    norm_num
  have hbase : cvBase (some closes) hist
      = { price := 21/2, pe_ttm := 0, pb := 0, total_mv := 0, circ_mv := 0,
          turnover := 0, vol_quot := 0, change_pct := 5, source := "fallback" } := by
    simp only [cvBase]
    rw [if_pos h2, hlt]
  constructor
  · unfold fetch_current_valuation
    rw [hbase]
    by_cases hsh : shares.getD 0 = 0 <;>
      norm_num [cvLg, cvSpot, cvBs, cvDerive, hsh]
  · intro k h lg sp b sh
    exact fetch_current_valuation_source_mem k h lg sp b sh

/-- C8 witness: closes exactly `[10, 10.5]`, every tier failing, no share
count: price 10.5, change 5 percent, source `"fallback"`. -/
theorem c8_fallback_snapshot_witness :
    (fetch_current_valuation (some [10, 21/2]) Option.none Option.none Option.none Option.none
        Option.none).price = 21/2 ∧
    (fetch_current_valuation (some [10, 21/2]) Option.none Option.none Option.none Option.none
        Option.none).change_pct = 5 ∧
    (fetch_current_valuation (some [10, 21/2]) Option.none Option.none Option.none Option.none
        Option.none).source = "fallback" := by
  have h := (c8_fallback_snapshot [10, 21/2] Option.none Option.none (by simp)
      (by simp) (by simp)).1
  refine ⟨h.1, h.2.1, ?_⟩
  simpa using h.2.2
